import Mathlib

/-!
# Verification of the nacl object-definition engine

Shallow embedding of the nacl repository (`src/nacl/`): the Naemon
object-definition data model (`parsers.py` `DataObject`, `naemon.py`
`ObjectDefinition`), its load/dump serialization, the sandboxed expression
evaluator (`expression.py` `Expression`, `naemon.py` `ObjdefFilter` /
`ObjdefUpdate`), the transactional rewriter buffer (`parsers.py` `DataFile`)
and the commit step (`cli.py` `commit`).

Python strings are modelled as Lean `String` (a wrapper around `List Char`);
the Python string primitives used by the code (`str.strip`, `str.split`,
`in`, `str.join`) are defined here over the character list, mirroring their
Python semantics.
-/

namespace Nacl

/-! ## Python string primitives -/

/-- Characters stripped by Python `str.strip()` with no argument
(ASCII whitespace; the rare non-ASCII space characters are not used by any
input modelled here). -/
def isPySpace (c : Char) : Bool :=
  c = ' ' || c = '\t' || c = '\n' || c = '\r' || c = '\x0b' || c = '\x0c'

/-- Remove leading characters satisfying `p` (Python `str.lstrip`). -/
def lstripWith (p : Char → Bool) (l : List Char) : List Char :=
  l.dropWhile p

/-- Remove trailing characters satisfying `p` (Python `str.rstrip`). -/
def rstripWith (p : Char → Bool) (l : List Char) : List Char :=
  (l.reverse.dropWhile p).reverse

/-- Remove leading and trailing characters satisfying `p` (Python `str.strip`). -/
def stripWith (p : Char → Bool) (l : List Char) : List Char :=
  rstripWith p (lstripWith p l)

/-- Python `s.strip()`. -/
def pyStrip (s : String) : String :=
  ⟨stripWith isPySpace s.data⟩

/-- Python `s.strip(chars)` for an explicit character set, e.g. `strip(" \x7b")`
in `ObjectDefinition.load`. -/
def pyStripSet (cs : List Char) (s : String) : String :=
  ⟨stripWith (fun c => cs.contains c) s.data⟩

/-- Split a character list at the first occurrence of `c`: Python
`s.split(c, 1)` succeeds with two parts exactly when this returns `some`. -/
def splitOnceChars (c : Char) : List Char → Option (List Char × List Char)
  | [] => none
  | a :: l =>
    if a = c then some ([], l)
    else (splitOnceChars c l).map (fun p => (a :: p.1, p.2))

/-- Python `s.split(c, 1)` when it yields two parts (`none` when the
separator is absent, in which case Python's two-target unpacking raises
`ValueError`). -/
def pySplitOnce (c : Char) (s : String) : Option (String × String) :=
  (splitOnceChars c s.data).map (fun p => (⟨p.1⟩, ⟨p.2⟩))

/-- Python `s.split(c)` on character lists; `[] ↦ [[]]` as in Python
(`"".split(",") == [""]`). -/
def splitAllChars (c : Char) : List Char → List (List Char)
  | [] => [[]]
  | a :: l =>
    if a = c then [] :: splitAllChars c l
    else
      match splitAllChars c l with
      | [] => [[a]]
      | x :: xs => (a :: x) :: xs

/-- Python `s.split(c)`. -/
def pySplitAll (c : Char) (s : String) : List String :=
  (splitAllChars c s.data).map (fun l => ⟨l⟩)

/-- Python `c in s` for a single character. -/
def strHasChar (c : Char) (s : String) : Bool :=
  s.data.contains c

/-- Python `pre in s` / `s.startswith(pre)` via character-list prefix. -/
def strStartsWith (pre s : String) : Bool :=
  pre.data.isPrefixOf s.data

/-- Contiguous-sublist test on character lists. -/
def isInfixChars (needle : List Char) : List Char → Bool
  | [] => needle.isEmpty
  | c :: rest => needle.isPrefixOf (c :: rest) || isInfixChars needle rest

/-- Python `needle in hay` for strings (substring containment). -/
def strSubstr (needle hay : String) : Bool :=
  isInfixChars needle.data hay.data

/-- Python `s[n:]` on character positions. -/
def strDrop (s : String) (n : Nat) : String :=
  ⟨s.data.drop n⟩

/-- Python `",".join(parts)`. -/
def joinComma : List String → String
  | [] => ""
  | [x] => x
  | x :: xs => x ++ "," ++ joinComma xs

/-- Concatenation of a list of strings at the character level
(Python `"".join`). -/
def concatData : List String → List Char
  | [] => []
  | s :: l => s.data ++ concatData l

/-! ## Values

Python values that can appear as directive values or expression results.
Floats are represented by rationals (no claim computes with floats; only the
type tag matters). General Python lists are represented by lists of strings:
the only list values reachable from directives and the modelled expression
grammar are comma-split string lists. -/

inductive Value where
  | vNone
  | vStr (s : String)
  | vInt (n : Int)
  | vFloat (q : Rat)
  | vBool (b : Bool)
  | vListStr (l : List String)
deriving DecidableEq, Repr

/-- Python truthiness of a `Value`. -/
def pyTruthy : Value → Bool
  | .vNone => false
  | .vStr s => s ≠ ""
  | .vInt n => n ≠ 0
  | .vFloat q => q ≠ 0
  | .vBool b => b
  | .vListStr l => l ≠ []

/-- Numeric view used by Python arithmetic and `==`: ints, floats and bools
are numbers (`True == 1`); the flag records floatness. -/
def numOf? : Value → Option (Bool × Rat)
  | .vInt n => some (false, (n : Rat))
  | .vFloat q => some (true, q)
  | .vBool b => some (false, if b then 1 else 0)
  | _ => none

/-- Python `==` on the modelled values: numeric cross-type equality,
structural equality otherwise, `False` across kinds. -/
def pyEq (a b : Value) : Bool :=
  match numOf? a, numOf? b with
  | some p, some q => p.2 = q.2
  | _, _ =>
    match a, b with
    | .vNone, .vNone => true
    | .vStr x, .vStr y => x = y
    | .vListStr x, .vListStr y => x = y
    | _, _ => false

/-- Python `type(v).__name__` for the error message of
`ObjdefUpdate._eval_assign`. -/
def typeName : Value → String
  | .vNone => "NoneType"
  | .vStr _ => "str"
  | .vInt _ => "int"
  | .vFloat _ => "float"
  | .vBool _ => "bool"
  | .vListStr _ => "list"

/-- Rendering of a value by `f"{v}"` in `ObjectDefinition.dump`.
Only string and int values are rendered by any well-formed record; the float
rendering is an approximation noted here and not relied on by any theorem. -/
def displayValue : Value → String
  | .vNone => "None"
  | .vStr s => s
  | .vInt n => toString n
  | .vFloat q => toString q
  | .vBool b => if b then "True" else "False"
  | .vListStr _ => "[...]"

/-! ## Records

`DataObject` (`parsers.py`) is an `OrderedDict` with an object type tag
(`ObjectDefinition.objtype`, `naemon.py`) and a source line number.  The
ordered mapping is an association list with unique keys; insertion order is
iteration order.  The `source_file` back-reference is diagnostic only and is
represented by the optional source name threaded through the parser. -/

structure Objdef where
  objtype : String
  directives : List (String × Value)
  linenum : Nat := 0
deriving DecidableEq, Repr

/-- Python `k in d` on the underlying dict. -/
def containsKey (ds : List (String × Value)) (k : String) : Bool :=
  ds.any (fun kv => kv.1 = k)

/-- Python `d.get(k)` / `d[k]` on the underlying dict: first (unique) match. -/
def lookupKey (ds : List (String × Value)) (k : String) : Option Value :=
  match ds.find? (fun kv => kv.1 = k) with
  | some kv => some kv.2
  | none => none

/-- Python `d[k] = v` on an `OrderedDict`: replace in place when the key is
present (keeping its position), append otherwise. -/
def setKey : List (String × Value) → String → Value → List (String × Value)
  | [], k, v => [(k, v)]
  | kv :: ds, k, v =>
    if kv.1 = k then (k, v) :: ds else kv :: setKey ds k v

/-- Python `del d[k]`: remove the (unique) entry for `k`. -/
def delKey : List (String × Value) → String → List (String × Value)
  | [], _ => []
  | kv :: ds, k => if kv.1 = k then ds else kv :: delKey ds k

/-- `DataObject.update` (`parsers.py`): a value equal to `None` or `""`
removes a *present* key; otherwise the value is stored (note the code's
`else` branch stores the empty value when the key is absent). -/
def valueEmpty (v : Value) : Bool :=
  v = .vNone || v = .vStr ""

/-- `DataObject.update(k, v)` applied to the record's directive mapping. -/
def objUpdate (r : Objdef) (k : String) (v : Value) : Objdef :=
  if valueEmpty v && containsKey r.directives k then
    { r with directives := delKey r.directives k }
  else
    { r with directives := setKey r.directives k v }

/-! ## Lookup with computed names and coercion -/

/-- `ObjectDefinition.conversion_table` (`naemon.py`), verbatim, including
the `"low_flap_threshold  "` entry with trailing spaces. All entries map to
`int`. -/
def conversionTable : List String :=
  ["active_checks_enabled", "check_freshness", "check_interval",
   "event_handler_enabled", "first_notification_delay",
   "flap_detection_enabled", "freshness_threshold", "high_flap_threshold",
   "hourly_value", "is_volatile", "low_flap_threshold  ",
   "max_check_attempts", "notification_interval", "notifications_enabled",
   "obsess", "obsess_over_host", "obsess_over_service",
   "passive_checks_enabled", "process_perf_data", "register",
   "retain_nonstatus_information", "retain_status_information",
   "retry_interval"]

/-- Python `int(s)` for strings, approximated by parsing the stripped
decimal form (numeric-literal refinements such as underscores are not used
by any theorem). `none` models the raised `ValueError`. -/
def pyIntOfString? (s : String) : Option Int :=
  (pyStrip s).toInt?

/-- Python `int(v)`; `none` models a raised `ValueError`/`TypeError`. -/
def pyIntOfValue? : Value → Option Int
  | .vStr s => pyIntOfString? s
  | .vInt n => some n
  | .vBool b => some (if b then 1 else 0)
  | .vFloat q => some (if q ≥ 0 then q.floor else -((-q).floor))
  | _ => none

/-- `ObjectDefinition.autoconvert` (`naemon.py`): convert values of known
directive names with `int`, swallowing conversion failures. -/
def autoconvert (k : String) (v : Value) : Value :=
  if conversionTable.contains k then
    match pyIntOfValue? v with
    | some n => .vInt n
    | none => v
  else v

/-- The computed read-only directive names declared with `register_name`:
`ObjectDefinition.type` is the only one. -/
def registerNames : List String := ["type"]

/-- `DataObject.__getitem__` (`parsers.py`) specialised by
`ObjectDefinition`: computed names shadow the mapping, values of known
directives are coerced, and missing keys yield `None` instead of raising. -/
def getItem (r : Objdef) (k : String) : Value :=
  if registerNames.contains k then .vStr r.objtype
  else
    match lookupKey r.directives k with
    | some v => autoconvert k v
    | none => .vNone

/-! ## Serialization: `ObjectDefinition.dump` -/

/-- `ObjectDefinition.keywidth`. -/
def keywidth : Nat := 30

/-- Python `f"{k:30}"`: left-justify to the key width. -/
def padKey (k : String) : String :=
  ⟨k.data ++ List.replicate (keywidth - k.data.length) ' '⟩

/-- The guard `v is not None and v != ""` in `ObjectDefinition.dump`. -/
def dumpable (v : Value) : Bool :=
  !(v = .vNone) && !(v = .vStr "")

/-- One directive line written by `ObjectDefinition.dump`
(`f"    \x7bk:30\x7d \x7bv\x7d\n"`, without the trailing newline). -/
def dumpDirLine (k : String) (v : Value) : String :=
  "    " ++ padKey k ++ " " ++ displayValue v

/-- `ObjectDefinition.dump` as the list of written lines (each line is
written with a trailing newline; the newline is implicit in the line
granularity used throughout, and every theorem's domain excludes embedded
newline characters, so the granularities agree). -/
def dumpLines (r : Objdef) : List String :=
  ("define " ++ r.objtype ++ " \x7b")
    :: (r.directives.filterMap fun kv =>
          if dumpable kv.2 then some (dumpDirLine kv.1 kv.2) else none)
    ++ ["\x7d"]

/-! ## Parsing: line preprocessing and `ObjectDefinition.load` -/

/-- `DataStream.preprocess_line` (`parsers.py`): strip a `#` comment, then
whitespace. -/
def preprocessLine (line : String) : String :=
  pyStrip (match pySplitOnce '#' line with
           | some p => p.1
           | none => line)

/-- Enumerate lines starting at 1 (Python `enumerate(stream, 1)`). -/
def enumFrom (n : Nat) : List String → List (Nat × String)
  | [] => []
  | l :: ls => (n, l) :: enumFrom (n + 1) ls

/-- `DataStream.read_lines`: enumerated, preprocessed, non-empty lines. -/
def readLines (ls : List String) : List (Nat × String) :=
  (enumFrom 1 ls).filterMap fun nl =>
    let p := preprocessLine nl.2
    if p = "" then none else some (nl.1, p)

/-- Structured failure of `ObjectDefinition.load`: `eof` is a
`StopIteration` escaping from the line stream, `malformed` the
`RuntimeError` raised on a directive line `line.split(" ", 1)` cannot
unpack, carrying the source name and offending line number. -/
inductive LoadErr where
  | eof
  | malformed (sourceName : Option String) (linenum : Nat)
deriving DecidableEq, Repr

/-- The location string interpolated into the `RuntimeError` message
(`f"\x7bsource_file.name\x7d line \x7blinenum\x7d"` or
`f"line \x7blinenum\x7d"`). -/
def errLocation : Option String → Nat → String
  | some name, n => name ++ " line " ++ toString n
  | none, n => "line " ++ toString n

/-- The rendered `RuntimeError` message (`load` appends the underlying
`ValueError` text after the location; only the prefix is modelled). -/
def loadErrMessage : Option String → Nat → String
  | sf, n => "Unsupported syntax at " ++ errLocation sf n

/-- The closing line of an object block. -/
def rbraceStr : String := "\x7d"

/-- The opening-brace character. -/
def lbraceChar : Char := Char.ofNat 123

/-- The skip loop of `ObjectDefinition.load`: ignore lines until one starts
with `"define "`, returning its line number, the remainder of that line,
and the rest of the stream. -/
def skipToDefine : List (Nat × String) → Option (Nat × String × List (Nat × String))
  | [] => none
  | (n, l) :: rest =>
    if strStartsWith "define " l then some (n, strDrop l 7, rest)
    else skipToDefine rest

/-- `ObjectDefinition.from_type`: registered classes only alter identifier
derivation, not the stored state, so every type tag yields a record with
that tag. -/
def fromType (objtype : String) (linenum : Nat) : Objdef :=
  { objtype := objtype, directives := [], linenum := linenum }

/-- The directive loop of `ObjectDefinition.load`: read `k, v =
line.split(" ", 1)` and store `objdef[k] = v.strip()` until the closing
brace. -/
def readDirectives (sf : Option String) (r : Objdef) :
    List (Nat × String) → Except LoadErr (Objdef × List (Nat × String))
  | [] => .error .eof
  | (n, l) :: rest =>
    if l = rbraceStr then .ok (r, rest)
    else
      match pySplitOnce ' ' l with
      | some kv =>
        readDirectives sf
          { r with directives := setKey r.directives kv.1 (.vStr (pyStrip kv.2)) }
          rest
      | none => .error (.malformed sf n)

/-- `ObjectDefinition.load` on a preprocessed line stream: skip to a
`define` line, take the type name (stripping `" \x7b"`, or consuming the
following line blindly when the opener holds no brace), then read
directives until the closing brace. -/
def loadObjdef (sf : Option String) (ls : List (Nat × String)) :
    Except LoadErr (Objdef × List (Nat × String)) :=
  match skipToDefine ls with
  | none => .error .eof
  | some (n, l, rest) =>
    if strHasChar lbraceChar l then
      readDirectives sf (fromType (pyStripSet [' ', lbraceChar] l) n) rest
    else
      match rest with
      | [] => .error .eof
      | _ :: rest2 => readDirectives sf (fromType l n) rest2

/-- Full pipeline for one record: raw lines through `read_lines` into
`load`. -/
def parseObjdef (sf : Option String) (rawLines : List String) :
    Except LoadErr (Objdef × List (Nat × String)) :=
  loadObjdef sf (readLines rawLines)

/-- `DataStream.read_objects` on an already-preprocessed stream: records
until `StopIteration`; a `RuntimeError` propagates.  A record with no
directives is falsy as a dict and is skipped by `if obj`. -/
def readObjectsFrom (sf : Option String) :
    Nat → List (Nat × String) → Except LoadErr (List Objdef)
  | 0, _ => .ok []
  | fuel + 1, ls =>
    match loadObjdef sf ls with
    | .ok (o, rest) =>
      (readObjectsFrom sf fuel rest).map fun os =>
        if o.directives.isEmpty then os else o :: os
    | .error .eof => .ok []
    | .error e => .error e

/-- All records of a raw text given as its lines. -/
def readObjects (sf : Option String) (rawLines : List String) :
    Except LoadErr (List Objdef) :=
  readObjectsFrom sf (rawLines.length + 1) (readLines rawLines)

/-- Python `==` on `ObjectDefinition` (`naemon.py __eq__`): equal type tags
and equal ordered dicts (`OrderedDict` comparison is order-sensitive and
compares values with Python `==`); the line number is not compared. -/
def dirsEqPy : List (String × Value) → List (String × Value) → Bool
  | [], [] => true
  | kv :: l1, kw :: l2 => kv.1 = kw.1 && pyEq kv.2 kw.2 && dirsEqPy l1 l2
  | _, _ => false

/-- Python `a == b` for records. -/
def objdefEqPy (a b : Objdef) : Bool :=
  a.objtype = b.objtype && dirsEqPy a.directives b.directives

/-! ## Expression engine

`Expression` (`expression.py`) compiles once with `ast.parse` and evaluates
the body against a `ChainMap` whose first map is the record.  Because
`DataObject.__getitem__` never raises `KeyError`, every name resolves
through the record (missing names resolve to `None`).  The evaluator
skeleton follows the `simpleeval` dispatch with the repository's overrides:
`in` / `not in` from `ObjdefFilter`, the `has_member` builtin, and the
assignment / augmented-assignment mutation forms from `ObjdefUpdate`.  The
grammar modelled is the fragment those claims range over: constants, name
lookups, boolean connectives, `+`/`-`, comparisons (`==`, `in`, `not in`),
`has_member` calls, assignment, and augmented `+=`/`-=` (other augmented
operators fall back to plain arithmetic in the parent class and are outside
the modelled grammar). -/

inductive BinK where
  | add
  | sub
deriving DecidableEq, Repr

inductive CmpK where
  | eq
  | inOp
  | notInOp
deriving DecidableEq, Repr

mutual
inductive Expr where
  | const (v : Value)
  | name (id : String)
  | andE (a b : Expr)
  | orE (a b : Expr)
  | notE (a : Expr)
  | binOp (op : BinK) (a b : Expr)
  | cmp (op : CmpK) (a b : Expr)
  | callHasMember (args : ExprList)
  | assign (targets : List String) (value : Expr)
  | augAssign (target : String) (op : BinK) (value : Expr)
deriving DecidableEq, Repr
inductive ExprList where
  | nil
  | cons (e : Expr) (es : ExprList)
deriving DecidableEq, Repr
end

/-- Python `a + b` on the modelled values (numbers by value, strings and
lists by concatenation); `error` models a raised `TypeError`. -/
def pyAdd : Value → Value → Except String Value
  | .vStr x, .vStr y => .ok (.vStr (x ++ y))
  | .vListStr x, .vListStr y => .ok (.vListStr (x ++ y))
  | a, b =>
    match numOf? a, numOf? b with
    | some p, some q =>
      .ok (if p.1 || q.1 then .vFloat (p.2 + q.2) else .vInt (p.2 + q.2).num)
    | _, _ => .error "TypeError: unsupported operand type(s) for +"

/-- Python `a - b` on the modelled values. -/
def pySub (a b : Value) : Except String Value :=
  match numOf? a, numOf? b with
  | some p, some q =>
    .ok (if p.1 || q.1 then .vFloat (p.2 - q.2) else .vInt (p.2 - q.2).num)
  | _, _ => .error "TypeError: unsupported operand type(s) for -"

/-- `ObjdefFilter.in_collection` (`naemon.py`): a falsy right-hand side
yields `False`; otherwise Python `a in b` (substring for strings, membership
for lists, `TypeError` otherwise). -/
def inCollection (a b : Value) : Except String Bool :=
  if !pyTruthy b then .ok false
  else
    match b with
    | .vStr s =>
      match a with
      | .vStr t => .ok (strSubstr t s)
      | _ => .error "TypeError: in requires string as left operand"
    | .vListStr l =>
      match a with
      | .vStr t => .ok (l.contains t)
      | _ => .ok false
    | _ => .error "TypeError: argument is not iterable"

/-- `ObjdefFilter.has_member` (`naemon.py`): falsy collections contain
nothing; a string collection is comma-split into stripped elements; the
result is true exactly when all members are present. -/
def hasMemberVals (collection : Value) (members : List Value) : Except String Bool :=
  if !pyTruthy collection then .ok false
  else
    match collection with
    | .vStr s =>
      .ok (members.all fun m =>
        match m with
        | .vStr t => ((pySplitAll ',' s).map pyStrip).contains t
        | _ => false)
    | .vListStr l =>
      .ok (members.all fun m =>
        match m with
        | .vStr t => l.contains t
        | _ => false)
    | _ => .error "TypeError: argument is not iterable"

/-- `ObjdefUpdate._eval_assign` applied to the already-evaluated right-hand
value: reject every type other than `None`, `str`, `int`, `float`; then run
`DataObject.update` on each target and return the value. -/
def assignableValue (v : Value) : Bool :=
  match v with
  | .vNone => true
  | .vStr _ => true
  | .vInt _ => true
  | .vFloat _ => true
  | _ => false

/-- The mutation and result of `_eval_assign` once the right-hand side has
been evaluated to `v`. -/
def assignValue (r : Objdef) (targets : List String) (v : Value) :
    Objdef × Except String Value :=
  if !assignableValue v then
    (r, .error ("Config values can be of type string, int or float, but not: "
                ++ typeName v))
  else
    (targets.foldl (fun acc k => objUpdate acc k v) r, .ok v)

/-- The left-hand list of `_eval_aug_assign`:
`left_value.split(",") if left_value else []` on `dataobject.get(target)`,
where a truthy non-string raises `AttributeError`. -/
def augLeftList (r : Objdef) (k : String) : Except String (List String) :=
  match lookupKey r.directives k with
  | none => .ok []
  | some v =>
    if pyTruthy v then
      match v with
      | .vStr s => .ok (pySplitAll ',' s)
      | _ => .error "AttributeError: object has no attribute split"
    else .ok []

/-- The tail of `_eval_aug_assign`: join the element list, store it with
`DataObject.update`, and return `value or None`. -/
def augFinish (r : Objdef) (k : String) (elems : List String) :
    Objdef × Except String Value :=
  let value := joinComma elems
  (objUpdate r k (.vStr value),
   .ok (if value = "" then .vNone else .vStr value))

mutual
/-- One step of the `simpleeval` tree walk with the repository's overrides,
threading the bound record (Python mutates it in place); the second
component is the produced value or a raised error. -/
def evalNode (r : Objdef) : Expr → Objdef × Except String Value
  | .const v => (r, .ok v)
  | .name k => (r, .ok (getItem r k))
  | .andE a b =>
    match evalNode r a with
    | (r1, .ok va) => if pyTruthy va then evalNode r1 b else (r1, .ok va)
    | err => err
  | .orE a b =>
    match evalNode r a with
    | (r1, .ok va) => if pyTruthy va then (r1, .ok va) else evalNode r1 b
    | err => err
  | .notE a =>
    match evalNode r a with
    | (r1, .ok va) => (r1, .ok (.vBool (!pyTruthy va)))
    | err => err
  | .binOp op a b =>
    match evalNode r a with
    | (r1, .ok va) =>
      match evalNode r1 b with
      | (r2, .ok vb) =>
        (r2, match op with | .add => pyAdd va vb | .sub => pySub va vb)
      | err => err
    | err => err
  | .cmp op a b =>
    match evalNode r a with
    | (r1, .ok va) =>
      match evalNode r1 b with
      | (r2, .ok vb) =>
        (r2, match op with
             | .eq => .ok (.vBool (pyEq va vb))
             | .inOp => (inCollection va vb).map .vBool
             | .notInOp => (inCollection va vb).map fun x => .vBool (!x))
      | err => err
    | err => err
  | .callHasMember args =>
    match evalArgs r args with
    | (r1, .ok vs) =>
      match vs with
      | [] => (r1, .error "TypeError: has_member missing collection argument")
      | c :: ms => (r1, (hasMemberVals c ms).map .vBool)
    | (r1, .error m) => (r1, .error m)
  | .assign targets value =>
    match evalNode r value with
    | (r1, .ok v) => assignValue r1 targets v
    | err => err
  | .augAssign k op value =>
    match augLeftList r k with
    | .error m => (r, .error m)
    | .ok left =>
      match evalNode r value with
      | (r1, .ok rv) =>
        match op with
        | .add =>
          match rv with
          | .vStr s => augFinish r1 k (if left.contains s then left else left ++ [s])
          | _ =>
            (r1, .error "TypeError: sequence item: expected str instance")
        | .sub =>
          match rv with
          | .vStr s => augFinish r1 k (left.erase s)
          | _ => augFinish r1 k left
      | err => err
/-- Left-to-right evaluation of call arguments. -/
def evalArgs (r : Objdef) : ExprList → Objdef × Except String (List Value)
  | .nil => (r, .ok [])
  | .cons e es =>
    match evalNode r e with
    | (r1, .ok v) =>
      match evalArgs r1 es with
      | (r2, .ok vs) => (r2, .ok (v :: vs))
      | (r2, .error m) => (r2, .error m)
    | (r1, .error m) => (r1, .error m)
end

/-- `Expression.eval` (`expression.py`): fold the parsed body, returning the
last node's value (`True` for an empty body); an exception aborts the
loop. -/
def evalStmts (r : Objdef) : List Expr → Objdef × Except String Value
  | [] => (r, .ok (.vBool true))
  | [e] => evalNode r e
  | e :: es =>
    match evalNode r e with
    | (r1, .ok _) => evalStmts r1 es
    | err => err

mutual
/-- An expression containing no assignment and no augmented-assignment
form. -/
def noAssign : Expr → Bool
  | .const _ => true
  | .name _ => true
  | .andE a b => noAssign a && noAssign b
  | .orE a b => noAssign a && noAssign b
  | .notE a => noAssign a
  | .binOp _ a b => noAssign a && noAssign b
  | .cmp _ a b => noAssign a && noAssign b
  | .callHasMember args => noAssignList args
  | .assign _ _ => false
  | .augAssign _ _ _ => false
def noAssignList : ExprList → Bool
  | .nil => true
  | .cons e es => noAssign e && noAssignList es
end

/-! ## Transactional rewriter: the `DataFile` copy buffer

`DataFile` (`parsers.py`) in update mode appends every raw line it reads to
`copybuffer` (`preprocess_line`) and flushes the buffer to the temporary
copy on the per-record decisions (`handle_prefix`, `handle_unchanged`,
`handle_update`); `close` flushes the remainder.  A session is modelled as
the sequence of those calls; the copy content is tracked at character level
(raw lines carry their own newlines, so concatenation is byte-faithful). -/

structure CopyState where
  deleteMode : Bool
  copybuffer : List String
  output : List Char
  updated : Bool
deriving DecidableEq, Repr

/-- The calls a parsing session makes on a `DataFile` in update mode. -/
inductive SessionEvent where
  | readLine (raw : String)
  | prefixFlush
  | unchangedFlush
  | updateFlush (obj : Option Objdef)
deriving DecidableEq, Repr

/-- The text `ObjectDefinition.dump` writes for a record (its lines, each
with a trailing newline). -/
def dumpData (o : Objdef) : List Char :=
  concatData ((dumpLines o).map fun l => l ++ "\n")

/-- One `DataFile` call.  `readLine` is `preprocess_line` buffering the raw
line; `prefixFlush` is `handle_prefix` (write all but the most recently
buffered line, kept unless in delete mode where it is a no-op);
`unchangedFlush` is `handle_unchanged` (write and clear the buffer);
`updateFlush` is `handle_update` (discard the buffer and write the record's
serialized form, or nothing for deletions). -/
def stepEvent (st : CopyState) : SessionEvent → CopyState
  | .readLine raw => { st with copybuffer := st.copybuffer ++ [raw] }
  | .prefixFlush =>
    if st.deleteMode then st
    else
      { st with
        output := st.output ++ concatData st.copybuffer.dropLast
        copybuffer := st.copybuffer.drop (st.copybuffer.length - 1) }
  | .unchangedFlush =>
    { st with output := st.output ++ concatData st.copybuffer, copybuffer := [] }
  | .updateFlush obj =>
    match obj with
    | none => { st with copybuffer := [], updated := true }
    | some o =>
      if st.deleteMode then { st with copybuffer := [], updated := true }
      else
        { st with
          copybuffer := []
          output := st.output ++ dumpData o
          updated := true }

/-- A fresh update-mode session (`DataFile.__init__` with `update_mode`). -/
def initState (deleteMode : Bool) : CopyState :=
  { deleteMode := deleteMode, copybuffer := [], output := [], updated := false }

/-- Run the session calls in order. -/
def runEvents (st : CopyState) (evs : List SessionEvent) : CopyState :=
  evs.foldl stepEvent st

/-- `DataFile.close`: a final `handle_unchanged` flush. -/
def closeSession (st : CopyState) : CopyState :=
  stepEvent st .unchangedFlush

/-- The raw lines a session read, in order: the input file's content is
their concatenation. -/
def readsOf : List SessionEvent → List String
  | [] => []
  | .readLine raw :: evs => raw :: readsOf evs
  | _ :: evs => readsOf evs

/-- An event that is not a `handle_update` call: the per-record decision
was `unchanged`. -/
def notUpdateEvent : SessionEvent → Bool
  | .updateFlush _ => false
  | _ => true

/-! ## Commit step (`cli.py commit`)

One loop iteration of `commit` for a single path, with the filesystem
abstracted to the two files involved: the original and the
transaction-suffixed file, each an optional (mtime, content) pair.
`os.path.getmtime` on a missing file and `shutil.move` from a missing file
both raise `FileNotFoundError`, which the loop body catches and passes
over. -/

structure FsFile where
  mtime : Int
  content : List String
deriving DecidableEq, Repr

inductive CommitOutcome where
  /-- The transaction file was moved over the original and the promotion
  echoed. -/
  | promoted
  /-- `"Skipped: Original file newer than transaction file"` echoed. -/
  | skippedReport
  /-- A `FileNotFoundError` was caught: silent per-path pass. -/
  | skippedSilent
deriving DecidableEq, Repr

/-- One iteration of the `commit` loop: the resulting original file, the
resulting transaction file, and the reported outcome. -/
def commitPath (noCheck : Bool) (orig trans : Option FsFile) :
    Option FsFile × Option FsFile × CommitOutcome :=
  if noCheck then
    match trans with
    | some tf => (some tf, none, .promoted)
    | none => (orig, trans, .skippedSilent)
  else
    match orig, trans with
    | some o, some tf =>
      if o.mtime < tf.mtime then (some tf, none, .promoted)
      else (some o, some tf, .skippedReport)
    | _, _ => (orig, trans, .skippedSilent)

/-! ## Transaction-file read-back (`--write=transaction`) -/

/-- `TRANSACTION_SUFFIX` (`cli.py`). -/
def TRANSACTION_SUFFIX : String := ".naclnew"

/-- A filesystem as a map from path to raw file lines. -/
def lookupFs (fs : List (String × List String)) (path : String) :
    Option (List String) :=
  match fs.find? (fun pc => pc.1 = path) with
  | some pc => some pc.2
  | none => none

/-- Modelled from the spec: the transaction-aware opening of a `DataFile`.
`src/cli.py main` constructs `ConfigFile(name, ..., transaction_suffix=...,
transaction_check=...)`, but the `DataFile.__init__` present in
`src/parsers.py` does not take those parameters: the member of the
`DataFile` constructor that selects the read path is not in `src/`.  Per
spec §4.3, "if a transaction file already exists for a path, subsequent
edit sessions must read from it instead of the pristine original". -/
def sessionSourceName (fs : List (String × List String)) (path : String)
    (transactionSuffix : Option String) : String :=
  match transactionSuffix with
  | some suffix =>
    if (lookupFs fs (path ++ suffix)).isSome then path ++ suffix else path
  | none => path

/-- The records an edit session on `path` parses, reading from the
transaction file when the session was opened with a transaction suffix and
that file exists. -/
def sessionRecords (fs : List (String × List String)) (path : String)
    (transactionSuffix : Option String) : Except LoadErr (List Objdef) :=
  let src := sessionSourceName fs path transactionSuffix
  readObjects (some src) ((lookupFs fs src).getD [])

/-! ## Well-formedness domain for the serialization round trip

The round trip `load ∘ dump` cannot hold for arbitrary records (empty
values are omitted by `dump`, comment and brace characters are eaten by the
line preprocessing, keys containing spaces are re-split differently); these
predicates carve out the domain on which it does hold. -/

/-- The list is non-empty and starts with a non-whitespace character. -/
def headNonSpace : List Char → Bool
  | [] => false
  | c :: _ => !isPySpace c

/-- The list is empty or does not start with `c`. -/
def edgeNotChar (c : Char) : List Char → Bool
  | [] => true
  | a :: _ => a ≠ c

/-- A directive key that `dump` and `load` transport faithfully: non-empty,
no whitespace (the split separator and padding), no comment marker. -/
def cleanKey (k : String) : Bool :=
  !k.data.isEmpty && k.data.all (fun c => !isPySpace c && c ≠ '#')

/-- A directive value string that `dump` and `load` transport faithfully:
non-empty, not starting or ending in whitespace (stripping is identity), no
comment marker, no line breaks. -/
def cleanValueStr (s : String) : Bool :=
  headNonSpace s.data && headNonSpace s.data.reverse &&
  s.data.all (fun c => c ≠ '#' && c ≠ '\n' && c ≠ '\r')

/-- A directive value that round-trips: a clean string (numeric values are
re-read as strings and would not compare dict-equal). -/
def cleanValue : Value → Bool
  | .vStr s => cleanValueStr s
  | _ => false

/-- A type tag that round-trips through the opener line: no comment marker,
no opening brace, no line breaks, and no leading/trailing space (stripped
by `strip(" \x7b")`). -/
def cleanType (t : String) : Bool :=
  t.data.all (fun c => c ≠ '#' && c ≠ lbraceChar && c ≠ '\n' && c ≠ '\r') &&
  edgeNotChar ' ' t.data && edgeNotChar ' ' t.data.reverse

/-- Directive keys are pairwise distinct (the dict invariant). -/
def nodupKeys : List (String × Value) → Bool
  | [] => true
  | kv :: ds => !containsKey ds kv.1 && nodupKeys ds

/-- The round-trip domain: clean type tag, clean keys and values, distinct
keys. -/
def wellFormed (r : Objdef) : Bool :=
  cleanType r.objtype &&
  r.directives.all (fun kv => cleanKey kv.1 && cleanValue kv.2) &&
  nodupKeys r.directives

deriving instance DecidableEq for Except

/-! # Theorems -/

/-! ## C5: the commit step's modification-time guard -/

/-- C5: for every path submitted to the commit step, an original strictly
older than its transaction file is replaced by it (promotion); an original
at least as new is skipped with a report and left untouched; the guard is
bypassed when disabled (`--no-transaction-check`); and a missing
transaction file is a silent per-path skip, never a fatal error. -/
theorem commit_mtime_guard (o tf : FsFile) :
    (o.mtime < tf.mtime →
      commitPath false (some o) (some tf) = (some tf, none, .promoted)) ∧
    (tf.mtime ≤ o.mtime →
      commitPath false (some o) (some tf) = (some o, some tf, .skippedReport)) ∧
    commitPath true (some o) (some tf) = (some tf, none, .promoted) ∧
    (∀ (nc : Bool) (orig : Option FsFile),
      commitPath nc orig none = (orig, none, .skippedSilent)) := by
  have hdef : commitPath false (some o) (some tf)
      = if o.mtime < tf.mtime then (some tf, none, .promoted)
        else (some o, some tf, .skippedReport) := rfl
  refine ⟨fun h => ?_, fun h => ?_, rfl, fun nc orig => ?_⟩
  · rw [hdef, if_pos h]
  · rw [hdef, if_neg (not_lt.mpr h)]
  · cases nc <;> cases orig <;> rfl

/-- Witness for C5 at concrete modification times. -/
theorem commit_mtime_guard_witness :
    commitPath false (some ⟨1, ["old"]⟩) (some ⟨2, ["new"]⟩)
      = (some ⟨2, ["new"]⟩, none, .promoted) ∧
    commitPath false (some ⟨3, ["old"]⟩) (some ⟨2, ["new"]⟩)
      = (some ⟨3, ["old"]⟩, some ⟨2, ["new"]⟩, .skippedReport) :=
  ⟨(commit_mtime_guard ⟨1, ["old"]⟩ ⟨2, ["new"]⟩).1 (by decide),
   (commit_mtime_guard ⟨3, ["old"]⟩ ⟨2, ["new"]⟩).2.1 (by decide)⟩

/-! ## C6: the assignment type gate (code bug at the `None` sentinel)

`_eval_assign` accepts `str`, `int`, `float` and the `None` sentinel and
rejects everything else without touching the record.  But
`DataObject.update` only removes a present key: assigning the `None`
sentinel (or `""`) when the directive is absent *stores* the empty value in
the mapping instead of leaving the directive removed, contradicting
`update`'s own docstring ("A `v` equal to `None` or `""` will remove the
key entirely") and the `--update` help text. -/

/-- C6 evaluated: string and int assignments succeed, mutate in place and
return the value; bool and list assignments fail with the type error
leaving the record unchanged; `None` on a present key removes it; and (the
failing input) `None` on an absent key stores a `None` entry instead of
leaving the directive removed. -/
theorem assign_gate_eval :
    assignValue ⟨"host", [], 0⟩ ["x"] (.vStr "v")
      = (⟨"host", [("x", .vStr "v")], 0⟩, .ok (.vStr "v")) ∧
    assignValue ⟨"host", [("x", .vStr "v")], 0⟩ ["y"] (.vInt 3)
      = (⟨"host", [("x", .vStr "v"), ("y", .vInt 3)], 0⟩, .ok (.vInt 3)) ∧
    assignValue ⟨"host", [("x", .vStr "v")], 0⟩ ["x"] (.vFloat 1)
      = (⟨"host", [("x", .vFloat 1)], 0⟩, .ok (.vFloat 1)) ∧
    assignValue ⟨"host", [("x", .vStr "v")], 0⟩ ["x"] (.vBool true)
      = (⟨"host", [("x", .vStr "v")], 0⟩,
         .error "Config values can be of type string, int or float, but not: bool") ∧
    assignValue ⟨"host", [("x", .vStr "v")], 0⟩ ["x"] (.vListStr ["a"])
      = (⟨"host", [("x", .vStr "v")], 0⟩,
         .error "Config values can be of type string, int or float, but not: list") ∧
    assignValue ⟨"host", [("x", .vStr "v")], 0⟩ ["x"] .vNone
      = (⟨"host", [], 0⟩, .ok .vNone) ∧
    assignValue ⟨"host", [], 0⟩ ["x"] .vNone
      = (⟨"host", [("x", .vNone)], 0⟩, .ok .vNone) := by
  decide

/-! ## C3: augmented assignment as comma-joined list editing
(code bug when the directive is absent)

The `+=`/`-=` semantics hold as claimed on present directives — the
docstring chain of `ObjdefUpdate` is reproduced below — but `-=` on an
*absent* directive is not a no-op: `",".join([])` is `""` and
`DataObject.update` stores `""` under an absent key instead of leaving the
directive removed (same `update` defect as in C6). -/

/-- C3 evaluated: the spec's `contacts` chain behaves as claimed on present
directives (append-if-absent, idempotence via the membership test, remove
first occurrence, removal of the directive when the list empties), and (the
failing input) `-=` on a record without the directive stores an empty
string directive instead of being a no-op. -/
theorem aug_assign_eval :
    evalNode ⟨"host", [], 0⟩ (.augAssign "contacts" .add (.const (.vStr "foo")))
      = (⟨"host", [("contacts", .vStr "foo")], 0⟩, .ok (.vStr "foo")) ∧
    evalNode ⟨"host", [("contacts", .vStr "foo")], 0⟩
        (.augAssign "contacts" .add (.const (.vStr "bar")))
      = (⟨"host", [("contacts", .vStr "foo,bar")], 0⟩, .ok (.vStr "foo,bar")) ∧
    evalNode ⟨"host", [("contacts", .vStr "foo,bar")], 0⟩
        (.augAssign "contacts" .add (.const (.vStr "bar")))
      = (⟨"host", [("contacts", .vStr "foo,bar")], 0⟩, .ok (.vStr "foo,bar")) ∧
    evalNode ⟨"host", [("contacts", .vStr "foo,bar")], 0⟩
        (.augAssign "contacts" .sub (.const (.vStr "foo")))
      = (⟨"host", [("contacts", .vStr "bar")], 0⟩, .ok (.vStr "bar")) ∧
    evalNode ⟨"host", [("contacts", .vStr "bar")], 0⟩
        (.augAssign "contacts" .sub (.const (.vStr "bar")))
      = (⟨"host", [], 0⟩, .ok .vNone) ∧
    evalNode ⟨"host", [("host_name", .vStr "foo")], 0⟩
        (.augAssign "contacts" .sub (.const (.vStr "bar")))
      = (⟨"host", [("host_name", .vStr "foo"), ("contacts", .vStr "")], 0⟩,
         .ok .vNone) := by
  decide

/-! ## C7: the `has_member` builtin -/

/-- C7: `has_member` returns false for a missing (`None`) or falsy (empty
string) collection regardless of the requested members, and on a non-empty
string collection returns true exactly when every requested member occurs
among the comma-split, whitespace-trimmed elements. -/
theorem has_member_semantics (s : String) (ms : List String) (h : s ≠ "") :
    hasMemberVals .vNone (ms.map .vStr) = .ok false ∧
    hasMemberVals (.vStr "") (ms.map .vStr) = .ok false ∧
    hasMemberVals (.vStr s) (ms.map .vStr)
      = .ok (ms.all fun m => ((pySplitAll ',' s).map pyStrip).contains m) := by
  refine ⟨rfl, rfl, ?_⟩
  have ht : (!pyTruthy (.vStr s)) = false := by simp [pyTruthy, h]
  simp only [hasMemberVals, ht, Bool.false_eq_true, if_false]
  refine congrArg Except.ok ?_
  induction ms with
  | nil => rfl
  | cons a t ih => simp only [List.map_cons, List.all_cons, ih]

/-- Witness for C7: membership of trimmed elements, a missing member, and
the falsy collections, at concrete inputs. -/
theorem has_member_semantics_witness :
    hasMemberVals (.vStr "a, b ,c") [.vStr "a", .vStr "b"] = .ok true ∧
    hasMemberVals (.vStr "a,b") [.vStr "c"] = .ok false ∧
    hasMemberVals .vNone [.vStr "a"] = .ok false := by
  refine ⟨?_, ?_, (has_member_semantics "x" ["a"] (by decide)).1⟩
  · exact ((has_member_semantics "a, b ,c" ["a", "b"] (by decide)).2.2).trans (by decide)
  · exact ((has_member_semantics "a,b" ["c"] (by decide)).2.2).trans (by decide)

/-! ## Evaluator structure lemmas (shared by C9 and C10) -/

theorem objUpdate_objtype (r : Objdef) (k : String) (v : Value) :
    (objUpdate r k v).objtype = r.objtype := by
  unfold objUpdate; split <;> rfl

theorem foldl_objUpdate_objtype (v : Value) :
    ∀ (ts : List String) (r : Objdef),
      (ts.foldl (fun acc k => objUpdate acc k v) r).objtype = r.objtype
  | [], _ => rfl
  | t :: ts, r => by
    rw [List.foldl_cons, foldl_objUpdate_objtype v ts (objUpdate r t v),
      objUpdate_objtype]

theorem assignValue_objtype (r : Objdef) (ts : List String) (v : Value) :
    ((assignValue r ts v).1).objtype = r.objtype := by
  unfold assignValue; split
  · rfl
  · exact foldl_objUpdate_objtype v ts r

theorem augFinish_objtype (r : Objdef) (k : String) (elems : List String) :
    ((augFinish r k elems).1).objtype = r.objtype := by
  unfold augFinish; exact objUpdate_objtype r k _

mutual
/-- The evaluator never changes a record's type tag: mutation flows only
through `objUpdate`, which touches the directive mapping. -/
theorem evalNode_objtype :
    ∀ (e : Expr) (r : Objdef), ((evalNode r e).1).objtype = r.objtype
  | .const _, _ => rfl
  | .name _, _ => rfl
  | .andE a b, r => by
    have ha := evalNode_objtype a r
    rcases hv : evalNode r a with ⟨r1, res⟩
    rw [hv] at ha
    cases res with
    | error m => simp only [evalNode, hv]; exact ha
    | ok va =>
      simp only [evalNode, hv]
      split
      · exact (evalNode_objtype b r1).trans ha
      · exact ha
  | .orE a b, r => by
    have ha := evalNode_objtype a r
    rcases hv : evalNode r a with ⟨r1, res⟩
    rw [hv] at ha
    cases res with
    | error m => simp only [evalNode, hv]; exact ha
    | ok va =>
      simp only [evalNode, hv]
      split
      · exact ha
      · exact (evalNode_objtype b r1).trans ha
  | .notE a, r => by
    have ha := evalNode_objtype a r
    rcases hv : evalNode r a with ⟨r1, res⟩
    rw [hv] at ha
    cases res with
    | error m => simp only [evalNode, hv]; exact ha
    | ok va => simp only [evalNode, hv]; exact ha
  | .binOp op a b, r => by
    have ha := evalNode_objtype a r
    rcases hv : evalNode r a with ⟨r1, res⟩
    rw [hv] at ha
    cases res with
    | error m => simp only [evalNode, hv]; exact ha
    | ok va =>
      have hb := evalNode_objtype b r1
      rcases hv2 : evalNode r1 b with ⟨r2, res2⟩
      rw [hv2] at hb
      cases res2 with
      | error m => simp only [evalNode, hv, hv2]; exact hb.trans ha
      | ok vb => simp only [evalNode, hv, hv2]; exact hb.trans ha
  | .cmp op a b, r => by
    have ha := evalNode_objtype a r
    rcases hv : evalNode r a with ⟨r1, res⟩
    rw [hv] at ha
    cases res with
    | error m => simp only [evalNode, hv]; exact ha
    | ok va =>
      have hb := evalNode_objtype b r1
      rcases hv2 : evalNode r1 b with ⟨r2, res2⟩
      rw [hv2] at hb
      cases res2 with
      | error m => simp only [evalNode, hv, hv2]; exact hb.trans ha
      | ok vb => simp only [evalNode, hv, hv2]; exact hb.trans ha
  | .callHasMember args, r => by
    have ha := evalArgs_objtype args r
    rcases hv : evalArgs r args with ⟨r1, res⟩
    rw [hv] at ha
    cases res with
    | error m => simp only [evalNode, hv]; exact ha
    | ok vs =>
      cases vs with
      | nil => simp only [evalNode, hv]; exact ha
      | cons c ms => simp only [evalNode, hv]; exact ha
  | .assign ts value, r => by
    have ha := evalNode_objtype value r
    rcases hv : evalNode r value with ⟨r1, res⟩
    rw [hv] at ha
    cases res with
    | error m => simp only [evalNode, hv]; exact ha
    | ok v =>
      simp only [evalNode, hv]
      exact (assignValue_objtype r1 ts v).trans ha
  | .augAssign k op value, r => by
    cases hl : augLeftList r k with
    | error m => simp only [evalNode, hl]
    | ok left =>
      have ha := evalNode_objtype value r
      rcases hv : evalNode r value with ⟨r1, res⟩
      rw [hv] at ha
      cases res with
      | error m => simp only [evalNode, hl, hv]; exact ha
      | ok rv =>
        cases op <;> cases rv <;> simp only [evalNode, hl, hv] <;>
          first
            | exact ha
            | exact (augFinish_objtype r1 k _).trans ha
/-- Companion of `evalNode_objtype` for argument lists. -/
theorem evalArgs_objtype :
    ∀ (es : ExprList) (r : Objdef), ((evalArgs r es).1).objtype = r.objtype
  | .nil, _ => rfl
  | .cons e es, r => by
    have ha := evalNode_objtype e r
    rcases hv : evalNode r e with ⟨r1, res⟩
    rw [hv] at ha
    cases res with
    | error m => simp only [evalArgs, hv]; exact ha
    | ok v =>
      have hb := evalArgs_objtype es r1
      rcases hv2 : evalArgs r1 es with ⟨r2, res2⟩
      rw [hv2] at hb
      cases res2 with
      | error m => simp only [evalArgs, hv, hv2]; exact hb.trans ha
      | ok vs => simp only [evalArgs, hv, hv2]; exact hb.trans ha
end

/-- `Expression.eval` over a whole body preserves the type tag. -/
theorem evalStmts_objtype :
    ∀ (es : List Expr) (r : Objdef), ((evalStmts r es).1).objtype = r.objtype
  | [], _ => rfl
  | [e], r => evalNode_objtype e r
  | e :: e2 :: es, r => by
    have ha := evalNode_objtype e r
    rcases hv : evalNode r e with ⟨r1, res⟩
    rw [hv] at ha
    cases res with
    | error m => simp only [evalStmts, hv]; exact ha
    | ok v =>
      simp only [evalStmts, hv]
      exact (evalStmts_objtype (e2 :: es) r1).trans ha

mutual
/-- Evaluating an expression with no assignment form leaves the record
untouched: only the two mutation cases of the dispatch write to it. -/
theorem evalNode_frame :
    ∀ (e : Expr) (r : Objdef), noAssign e = true → (evalNode r e).1 = r
  | .const _, _, _ => rfl
  | .name _, _, _ => rfl
  | .andE a b, r, h => by
    have hab : noAssign a = true ∧ noAssign b = true := by
      simpa [noAssign, Bool.and_eq_true] using h
    have ha := evalNode_frame a r hab.1
    rcases hv : evalNode r a with ⟨r1, res⟩
    rw [hv] at ha
    cases res with
    | error m => simp only [evalNode, hv]; exact ha
    | ok va =>
      simp only [evalNode, hv]
      split
      · exact (evalNode_frame b r1 hab.2).trans ha
      · exact ha
  | .orE a b, r, h => by
    have hab : noAssign a = true ∧ noAssign b = true := by
      simpa [noAssign, Bool.and_eq_true] using h
    have ha := evalNode_frame a r hab.1
    rcases hv : evalNode r a with ⟨r1, res⟩
    rw [hv] at ha
    cases res with
    | error m => simp only [evalNode, hv]; exact ha
    | ok va =>
      simp only [evalNode, hv]
      split
      · exact ha
      · exact (evalNode_frame b r1 hab.2).trans ha
  | .notE a, r, h => by
    have ha := evalNode_frame a r (by simpa [noAssign] using h)
    rcases hv : evalNode r a with ⟨r1, res⟩
    rw [hv] at ha
    cases res with
    | error m => simp only [evalNode, hv]; exact ha
    | ok va => simp only [evalNode, hv]; exact ha
  | .binOp op a b, r, h => by
    have hab : noAssign a = true ∧ noAssign b = true := by
      simpa [noAssign, Bool.and_eq_true] using h
    have ha := evalNode_frame a r hab.1
    rcases hv : evalNode r a with ⟨r1, res⟩
    rw [hv] at ha
    cases res with
    | error m => simp only [evalNode, hv]; exact ha
    | ok va =>
      have hb := evalNode_frame b r1 hab.2
      rcases hv2 : evalNode r1 b with ⟨r2, res2⟩
      rw [hv2] at hb
      cases res2 with
      | error m => simp only [evalNode, hv, hv2]; exact hb.trans ha
      | ok vb => simp only [evalNode, hv, hv2]; exact hb.trans ha
  | .cmp op a b, r, h => by
    have hab : noAssign a = true ∧ noAssign b = true := by
      simpa [noAssign, Bool.and_eq_true] using h
    have ha := evalNode_frame a r hab.1
    rcases hv : evalNode r a with ⟨r1, res⟩
    rw [hv] at ha
    cases res with
    | error m => simp only [evalNode, hv]; exact ha
    | ok va =>
      have hb := evalNode_frame b r1 hab.2
      rcases hv2 : evalNode r1 b with ⟨r2, res2⟩
      rw [hv2] at hb
      cases res2 with
      | error m => simp only [evalNode, hv, hv2]; exact hb.trans ha
      | ok vb => simp only [evalNode, hv, hv2]; exact hb.trans ha
  | .callHasMember args, r, h => by
    have ha := evalArgs_frame args r (by simpa [noAssign] using h)
    rcases hv : evalArgs r args with ⟨r1, res⟩
    rw [hv] at ha
    cases res with
    | error m => simp only [evalNode, hv]; exact ha
    | ok vs =>
      cases vs with
      | nil => simp only [evalNode, hv]; exact ha
      | cons c ms => simp only [evalNode, hv]; exact ha
/-- Companion of `evalNode_frame` for argument lists. -/
theorem evalArgs_frame :
    ∀ (es : ExprList) (r : Objdef), noAssignList es = true → (evalArgs r es).1 = r
  | .nil, _, _ => rfl
  | .cons e es, r, h => by
    have hab : noAssign e = true ∧ noAssignList es = true := by
      simpa [noAssignList, Bool.and_eq_true] using h
    have ha := evalNode_frame e r hab.1
    rcases hv : evalNode r e with ⟨r1, res⟩
    rw [hv] at ha
    cases res with
    | error m => simp only [evalArgs, hv]; exact ha
    | ok v =>
      have hb := evalArgs_frame es r1 hab.2
      rcases hv2 : evalArgs r1 es with ⟨r2, res2⟩
      rw [hv2] at hb
      cases res2 with
      | error m => simp only [evalArgs, hv, hv2]; exact hb.trans ha
      | ok vs => simp only [evalArgs, hv, hv2]; exact hb.trans ha
end

/-- `Expression.eval` over a body of assignment-free expressions leaves the
record untouched. -/
theorem evalStmts_frame :
    ∀ (es : List Expr) (r : Objdef), es.all noAssign = true → (evalStmts r es).1 = r
  | [], _, _ => rfl
  | [e], r, h => evalNode_frame e r (by simpa using h)
  | e :: e2 :: es, r, h => by
    have hab : noAssign e = true ∧ (e2 :: es).all noAssign = true := by
      simpa [List.all_cons, Bool.and_eq_true] using h
    have ha := evalNode_frame e r hab.1
    rcases hv : evalNode r e with ⟨r1, res⟩
    rw [hv] at ha
    cases res with
    | error m => simp only [evalStmts, hv]; exact ha
    | ok v =>
      simp only [evalStmts, hv]
      exact (evalStmts_frame (e2 :: es) r1 hab.2).trans ha

/-! ## C10: filters never mutate records -/

/-- C10: evaluating a compiled expression body that contains no assignment
and no augmented-assignment form leaves the bound record completely
unchanged — same directive mapping, same type tag, same line number. -/
theorem filter_eval_preserves_record (es : List Expr) (r : Objdef)
    (h : es.all noAssign = true) : (evalStmts r es).1 = r :=
  evalStmts_frame es r h

/-- Witness for C10: a realistic filter (`host_name == 'foo' and
has_member(contacts, 'a')`) evaluated against a concrete record. -/
theorem filter_eval_preserves_record_witness :
    ([Expr.andE (.cmp .eq (.name "host_name") (.const (.vStr "foo")))
        (.callHasMember (.cons (.name "contacts")
          (.cons (.const (.vStr "a")) .nil)))].all noAssign = true) ∧
    (evalStmts ⟨"host", [("host_name", .vStr "foo"), ("contacts", .vStr "a,b")], 3⟩
        [Expr.andE (.cmp .eq (.name "host_name") (.const (.vStr "foo")))
          (.callHasMember (.cons (.name "contacts")
            (.cons (.const (.vStr "a")) .nil)))]).1
      = ⟨"host", [("host_name", .vStr "foo"), ("contacts", .vStr "a,b")], 3⟩ :=
  ⟨by decide, filter_eval_preserves_record _ _ (by decide)⟩

/-! ## C9: computed directive names shadow and survive mutation -/

/-- C9: for every record and every sequence of update expressions
(including assignments to `type` itself), looking up the computed name
`type` still returns the computed value derived from the type tag,
shadowing whatever the underlying directive mapping holds. -/
theorem computed_type_shadowing (r : Objdef) (es : List Expr) :
    getItem ((evalStmts r es).1) "type" = .vStr r.objtype := by
  have hdef : getItem ((evalStmts r es).1) "type"
      = .vStr ((evalStmts r es).1).objtype := rfl
  rw [hdef, evalStmts_objtype es r]

/-! ## C2: pass-through copying is byte-identical -/

theorem concatData_append (l1 l2 : List String) :
    concatData (l1 ++ l2) = concatData l1 ++ concatData l2 := by
  induction l1 with
  | nil => rfl
  | cons s l ih => simp [concatData, ih]

theorem dropLast_append_drop {α : Type} :
    ∀ l : List α, l.dropLast ++ l.drop (l.length - 1) = l
  | [] => rfl
  | [a] => rfl
  | a :: b :: t => by
    have ih := dropLast_append_drop (b :: t)
    show a :: ((b :: t).dropLast ++ (b :: t).drop ((b :: t).length - 1)) = a :: b :: t
    rw [ih]

/-- Invariant of the copy pipeline: with only pass-through decisions, the
flushed output plus the pending buffer always equals the raw text read. -/
theorem runEvents_unchanged :
    ∀ (evs : List SessionEvent) (st : CopyState),
      (∀ e ∈ evs, notUpdateEvent e = true) →
      (closeSession (runEvents st evs)).output
        = st.output ++ concatData st.copybuffer ++ concatData (readsOf evs)
  | [], st, _ => by
    simp [closeSession, runEvents, stepEvent, readsOf, concatData]
  | e :: evs, st, h => by
    have htail : ∀ x ∈ evs, notUpdateEvent x = true :=
      fun x hx => h x (List.mem_cons_of_mem _ hx)
    have ih := runEvents_unchanged evs (stepEvent st e) htail
    rw [show runEvents st (e :: evs) = runEvents (stepEvent st e) evs from rfl, ih]
    cases e with
    | readLine raw =>
      simp [stepEvent, readsOf, concatData_append, concatData, List.append_assoc]
    | prefixFlush =>
      by_cases hd : st.deleteMode = true
      · simp [stepEvent, hd, readsOf]
      · simp only [stepEvent, hd, if_false, Bool.false_eq_true, readsOf]
        rw [List.append_assoc st.output, ← concatData_append, dropLast_append_drop]
    | unchangedFlush =>
      simp [stepEvent, readsOf, concatData]
    | updateFlush o =>
      exact absurd (h _ (List.mem_cons_self _ _)) (by simp [notUpdateEvent])

/-- C2: an update-mode session whose per-record decisions are all
`unchanged` (no `handle_update` call) writes, once closed, a copy that is
byte-identical to the concatenation of the raw lines it read — the input
file's content. -/
theorem rewrite_unchanged_byte_identical (dm : Bool) (evs : List SessionEvent)
    (h : ∀ e ∈ evs, notUpdateEvent e = true) :
    (closeSession (runEvents (initState dm) evs)).output
      = concatData (readsOf evs) := by
  have hrun := runEvents_unchanged evs (initState dm) h
  simpa [initState, concatData] using hrun

/-- Witness for C2: a session over a four-line file with a prefix flush and
an `unchanged` decision reproduces the file exactly. -/
theorem rewrite_unchanged_byte_identical_witness :
    (closeSession (runEvents (initState false)
        [.readLine "# comment\n", .readLine "define host \x7b\n", .prefixFlush,
         .readLine "    host_name  foo\n", .readLine "\x7d\n", .unchangedFlush,
         .readLine "# trailing\n"])).output
      = concatData ["# comment\n", "define host \x7b\n", "    host_name  foo\n",
                    "\x7d\n", "# trailing\n"] := by
  have h := rewrite_unchanged_byte_identical false
    [.readLine "# comment\n", .readLine "define host \x7b\n", .prefixFlush,
     .readLine "    host_name  foo\n", .readLine "\x7d\n", .unchangedFlush,
     .readLine "# trailing\n"] (by decide)
  exact h

/-! ## C4: transaction files are read back (spec-modelled) -/

/-- C4: when the write strategy is `transaction` and a transaction-suffixed
file already exists for a path, an edit session on that path reads and
parses the transaction file's content rather than the pristine original, so
edits from repeated invocations compose. -/
theorem transaction_read_back (fs : List (String × List String))
    (path : String) (content : List String)
    (h : lookupFs fs (path ++ TRANSACTION_SUFFIX) = some content) :
    sessionSourceName fs path (some TRANSACTION_SUFFIX)
      = path ++ TRANSACTION_SUFFIX ∧
    sessionRecords fs path (some TRANSACTION_SUFFIX)
      = readObjects (some (path ++ TRANSACTION_SUFFIX)) content := by
  have hsrc : sessionSourceName fs path (some TRANSACTION_SUFFIX)
      = path ++ TRANSACTION_SUFFIX := by
    simp [sessionSourceName, h]
  refine ⟨hsrc, ?_⟩
  simp [sessionRecords, hsrc, h]

/-- Witness for C4: with a transaction file holding `register 0` next to an
original holding `register 1`, the session parses the transaction file's
record. -/
theorem transaction_read_back_witness :
    sessionRecords
        [("naemon.cfg", ["define host \x7b", "    register  1", "\x7d"]),
         ("naemon.cfg.naclnew", ["define host \x7b", "    register  0", "\x7d"])]
        "naemon.cfg" (some TRANSACTION_SUFFIX)
      = .ok [⟨"host", [("register", .vStr "0")], 1⟩] := by
  have h := (transaction_read_back
    [("naemon.cfg", ["define host \x7b", "    register  1", "\x7d"]),
     ("naemon.cfg.naclnew", ["define host \x7b", "    register  0", "\x7d"])]
    "naemon.cfg" ["define host \x7b", "    register  0", "\x7d"]
    (by decide)).2
  exact h.trans (by decide)

/-! ## C8: directive-line splitting and the structured parse error -/

theorem strData_append (a b : String) : (a ++ b).data = a.data ++ b.data := rfl

theorem splitOnceChars_of_not_mem {c : Char} :
    ∀ {l : List Char}, c ∉ l → splitOnceChars c l = none
  | [], _ => rfl
  | a :: l, h => by
    have hne : a ≠ c := fun e => h (e ▸ List.mem_cons_self a l)
    simp [splitOnceChars, hne,
      splitOnceChars_of_not_mem (fun hm => h (List.mem_cons_of_mem a hm))]

theorem splitOnceChars_append {c : Char} :
    ∀ (xs ys : List Char), c ∉ xs →
      splitOnceChars c (xs ++ c :: ys) = some (xs, ys)
  | [], ys, _ => by simp [splitOnceChars]
  | x :: xs, ys, h => by
    have hne : x ≠ c := fun e => h (e ▸ List.mem_cons_self x xs)
    simp [splitOnceChars, hne,
      splitOnceChars_append xs ys (fun hm => h (List.mem_cons_of_mem x hm))]

/-- C8 (amended): a directive line is split at its first *space character*
(`line.split(" ", 1)`), the key being everything before that space and the
value the stripped remainder; a directive line containing no space at all —
even one whose key/value separator is other whitespace such as a tab —
fails with the structured error carrying the source name and line number,
whose rendered message cites both. -/
theorem directive_line_split (sf : Option String) (r : Objdef) (n : Nat)
    (tail : List (Nat × String)) :
    (∀ k v : String, ' ' ∉ k.data →
       readDirectives sf r ((n, k ++ " " ++ v) :: tail)
         = readDirectives sf
             { r with directives := setKey r.directives k (.vStr (pyStrip v)) }
             tail) ∧
    (∀ l : String, ' ' ∉ l.data → l ≠ rbraceStr →
       readDirectives sf r ((n, l) :: tail) = .error (.malformed sf n)) ∧
    (∀ f : String,
       loadErrMessage (some f) n
         = "Unsupported syntax at " ++ f ++ " line " ++ toString n) := by
  refine ⟨fun k v hk => ?_, fun l hl hbrace => ?_, fun f => rfl⟩
  · have hmem : ' ' ∈ (k ++ " " ++ v).data := by
      rw [strData_append, strData_append]
      exact List.mem_append.mpr
        (Or.inl (List.mem_append.mpr (Or.inr (by decide))))
    have hneq : k ++ " " ++ v ≠ rbraceStr := by
      intro he
      rw [he] at hmem
      exact absurd hmem (by decide)
    have hsplit : pySplitOnce ' ' (k ++ " " ++ v) = some (k, v) := by
      unfold pySplitOnce
      rw [strData_append, strData_append, List.append_assoc,
        show (" ".data ++ v.data : List Char) = ' ' :: v.data from rfl,
        splitOnceChars_append k.data v.data hk]
      rfl
    simp only [readDirectives, if_neg hneq, hsplit]
  · have hsplit : pySplitOnce ' ' l = none := by
      unfold pySplitOnce
      rw [splitOnceChars_of_not_mem hl]
      rfl
    simp only [readDirectives, if_neg hbrace, hsplit]

/-- Witness for C8: a line with a multi-space separator splits at the first
space, the value is stripped, and the block closes. -/
theorem directive_line_split_witness :
    readDirectives (some "naemon.cfg") ⟨"host", [], 1⟩
        [(2, "host_name   foo"), (3, "\x7d")]
      = .ok (⟨"host", [("host_name", .vStr "foo")], 1⟩, []) := by
  have h := (directive_line_split (some "naemon.cfg") ⟨"host", [], 1⟩ 2
    [(3, rbraceStr)]).1 "host_name" "  foo" (by decide)
  exact h.trans (by decide)

/-- C8 counterexample: a tab-separated directive line has a whitespace run
between key and value, but the parser errors instead of splitting there —
the claim's "first run of whitespace" does not hold, only "first space". -/
theorem directive_whitespace_counter :
    parseObjdef (some "naemon.cfg")
        ["define host \x7b", "  host_name\tfoo", "\x7d"]
      = .error (.malformed (some "naemon.cfg") 2) ∧
    parseObjdef (some "naemon.cfg")
        ["define host \x7b", "  host_name\tfoo", "\x7d"]
      ≠ .ok (⟨"host", [("host_name", .vStr "foo")], 1⟩, []) := by
  decide

/-! ## C1: the serialization round trip

Stripping and splitting lemmas over the character lists, then the shape of
each dumped line under preprocessing, then the directive loop, then the
assembled round trip on the well-formed domain. -/

theorem dropWhile_replicate_cons (p : Char → Bool) (c : Char) (hc : p c = true) :
    ∀ (m : Nat) (l : List Char),
      (List.replicate m c ++ l).dropWhile p = l.dropWhile p
  | 0, _ => rfl
  | m + 1, l => by
    simp only [List.replicate_succ, List.cons_append, List.dropWhile_cons, hc,
      if_true, dropWhile_replicate_cons p c hc m l]

theorem dropWhile_eq_self_of_head (p : Char → Bool) :
    ∀ l : List Char, (∀ c, l.head? = some c → p c = false) → l.dropWhile p = l
  | [], _ => rfl
  | a :: l, h => by
    simp only [List.dropWhile_cons, h a rfl, Bool.false_eq_true, if_false]

theorem stripWith_eq_self (p : Char → Bool) (l : List Char)
    (h1 : ∀ c, l.head? = some c → p c = false)
    (h2 : ∀ c, l.reverse.head? = some c → p c = false) :
    stripWith p l = l := by
  unfold stripWith lstripWith rstripWith
  rw [dropWhile_eq_self_of_head p l h1, dropWhile_eq_self_of_head p l.reverse h2,
    List.reverse_reverse]

theorem head_false_of_headNonSpace {l : List Char} (h : headNonSpace l = true) :
    ∀ c, l.head? = some c → isPySpace c = false := by
  cases l with
  | nil => intro c hc; simp at hc
  | cons a t =>
    intro c hc
    obtain rfl : a = c := by simpa using hc
    simpa [headNonSpace] using h

theorem ne_nil_of_headNonSpace {l : List Char} (h : headNonSpace l = true) :
    l ≠ [] := by
  cases l with
  | nil => simp [headNonSpace] at h
  | cons a t => simp

theorem head?_append_of_ne_nil {l1 l2 : List Char} (h : l1 ≠ []) :
    (l1 ++ l2).head? = l1.head? := by
  cases l1 with
  | nil => exact absurd rfl h
  | cons a t => rfl

theorem pyStrip_eq_self_of_clean (s : String) (h : cleanValueStr s = true) :
    pyStrip s = s := by
  have hparts := by simpa [cleanValueStr, Bool.and_eq_true] using h
  show (⟨stripWith isPySpace s.data⟩ : String) = s
  rw [stripWith_eq_self isPySpace s.data
    (head_false_of_headNonSpace hparts.1.1)
    (head_false_of_headNonSpace hparts.1.2)]

theorem preprocessLine_no_comment (l : String) (h : '#' ∉ l.data) :
    preprocessLine l = pyStrip l := by
  have hsplit : pySplitOnce '#' l = none := by
    unfold pySplitOnce
    rw [splitOnceChars_of_not_mem h]
    rfl
  unfold preprocessLine
  rw [hsplit]

theorem all_ne_of_all {l : List Char} {p : Char → Bool}
    (h : l.all p = true) {c : Char} (hc : p c = false) : c ∉ l := by
  intro hm
  rw [List.all_eq_true] at h
  exact absurd (h c hm) (by simp [hc])

theorem cleanKey_props {k : String} (hk : cleanKey k = true) :
    ¬k.data = [] ∧ ∀ x ∈ k.data, isPySpace x = false ∧ ¬x = '#' := by
  simpa [cleanKey] using hk

theorem cleanKey_no_space {k : String} (hk : cleanKey k = true) :
    ' ' ∉ k.data := by
  intro hm
  exact absurd ((cleanKey_props hk).2 ' ' hm).1 (by decide)

theorem cleanKey_no_hash {k : String} (hk : cleanKey k = true) :
    '#' ∉ k.data := by
  intro hm
  exact absurd rfl ((cleanKey_props hk).2 '#' hm).2

theorem cleanKey_ne_nil {k : String} (hk : cleanKey k = true) :
    k.data ≠ [] :=
  (cleanKey_props hk).1

theorem mem_of_head? {l : List Char} {c : Char} (hc : l.head? = some c) :
    c ∈ l := by
  cases l with
  | nil => simp at hc
  | cons a t =>
    obtain rfl : a = c := by simpa using hc
    simp

theorem cleanKey_head {k : String} (hk : cleanKey k = true) :
    ∀ c, k.data.head? = some c → isPySpace c = false := fun c hc =>
  ((cleanKey_props hk).2 c (mem_of_head? hc)).1

theorem cleanValueStr_no_hash {s : String} (hv : cleanValueStr s = true) :
    '#' ∉ s.data := by
  have hall := (by simpa [cleanValueStr, Bool.and_eq_true] using hv :
    (headNonSpace s.data = true ∧ headNonSpace s.data.reverse = true) ∧
      ∀ c ∈ s.data, (¬c = '#' ∧ ¬c = '\n') ∧ ¬c = '\x0d')
  intro hm
  exact absurd rfl (hall.2 '#' hm).1.1

theorem cleanValueStr_edges {s : String} (hv : cleanValueStr s = true) :
    headNonSpace s.data = true ∧ headNonSpace s.data.reverse = true := by
  have hall := by simpa [cleanValueStr, Bool.and_eq_true] using hv
  exact hall.1

theorem dumpDirLine_data (k s : String) :
    (dumpDirLine k (.vStr s)).data
      = List.replicate 4 ' '
          ++ (k.data ++ List.replicate (keywidth - k.data.length) ' ')
          ++ [' '] ++ s.data := rfl

/-- A dumped directive line, preprocessed, is the key, a non-empty run of
spaces, and the value. -/
theorem preprocess_dirLine (k s : String) (hk : cleanKey k = true)
    (hv : cleanValueStr s = true) :
    preprocessLine (dumpDirLine k (.vStr s))
      = ⟨k.data ++ List.replicate (keywidth - k.data.length + 1) ' ' ++ s.data⟩ := by
  have hhash : '#' ∉ (dumpDirLine k (.vStr s)).data := by
    rw [dumpDirLine_data]
    intro hm
    simp only [List.mem_append] at hm
    rcases hm with ((hm | (hm | hm)) | hm) | hm
    · exact absurd (List.eq_of_mem_replicate hm) (by decide)
    · exact cleanKey_no_hash hk hm
    · exact absurd (List.eq_of_mem_replicate hm) (by decide)
    · simp at hm
    · exact cleanValueStr_no_hash hv hm
  rw [preprocessLine_no_comment _ hhash]
  show (⟨stripWith isPySpace (dumpDirLine k (.vStr s)).data⟩ : String) = _
  rw [dumpDirLine_data]
  have hsnil : s.data ≠ [] := ne_nil_of_headNonSpace (cleanValueStr_edges hv).1
  have hrevnil : s.data.reverse ≠ [] := by
    simpa using hsnil
  have hlstrip :
      lstripWith isPySpace
          (List.replicate 4 ' '
            ++ (k.data ++ List.replicate (keywidth - k.data.length) ' ')
            ++ [' '] ++ s.data)
        = k.data ++ (List.replicate (keywidth - k.data.length) ' '
            ++ ([' '] ++ s.data)) := by
    unfold lstripWith
    simp only [List.append_assoc]
    rw [dropWhile_replicate_cons isPySpace ' ' (by decide)]
    refine dropWhile_eq_self_of_head isPySpace _ (fun c hc => ?_)
    rw [head?_append_of_ne_nil (cleanKey_ne_nil hk)] at hc
    exact cleanKey_head hk c hc
  unfold stripWith
  rw [hlstrip]
  unfold rstripWith
  rw [dropWhile_eq_self_of_head isPySpace _ (fun c hc => ?_), List.reverse_reverse]
  · refine congrArg String.mk ?_
    simp [List.replicate_succ', List.append_assoc]
  · rw [List.reverse_append, List.reverse_append, List.reverse_append] at hc
    simp only [List.append_assoc] at hc
    rw [head?_append_of_ne_nil hrevnil] at hc
    exact head_false_of_headNonSpace (cleanValueStr_edges hv).2 c hc

theorem cleanType_props {t : String} (ht : cleanType t = true) :
    ((∀ x ∈ t.data, ((¬x = '#' ∧ ¬x = lbraceChar) ∧ ¬x = '\n') ∧ ¬x = '\x0d') ∧
      edgeNotChar ' ' t.data = true) ∧ edgeNotChar ' ' t.data.reverse = true := by
  simpa [cleanType] using ht

theorem opener_data (t : String) :
    ("define " ++ t ++ " \x7b").data
      = "define ".data ++ (t.data ++ [' ', lbraceChar]) := by
  rw [strData_append, strData_append, List.append_assoc]
  refine congrArg (fun l => "define ".data ++ (t.data ++ l)) ?_
  decide

/-- The dumped opener line survives preprocessing unchanged. -/
theorem preprocess_opener (t : String) (ht : cleanType t = true) :
    preprocessLine ("define " ++ t ++ " \x7b") = "define " ++ t ++ " \x7b" := by
  have hhash : '#' ∉ ("define " ++ t ++ " \x7b").data := by
    rw [opener_data]
    intro hm
    rcases List.mem_append.mp hm with hm | hm
    · exact absurd hm (by decide)
    · rcases List.mem_append.mp hm with hm | hm
      · exact absurd rfl ((cleanType_props ht).1.1 '#' hm).1.1.1
      · exact absurd hm (by decide)
  rw [preprocessLine_no_comment _ hhash]
  have hid : stripWith isPySpace ("define " ++ t ++ " \x7b").data
      = ("define " ++ t ++ " \x7b").data := by
    refine stripWith_eq_self _ _ (fun c hc => ?_) (fun c hc => ?_)
    · rw [opener_data, head?_append_of_ne_nil (by decide)] at hc
      obtain rfl : 'd' = c := by simpa using hc
      decide
    · rw [opener_data, List.reverse_append, List.reverse_append] at hc
      rw [show ([' ', lbraceChar].reverse : List Char) = [lbraceChar, ' ']
        from by decide] at hc
      simp only [List.append_assoc] at hc
      rw [@head?_append_of_ne_nil [lbraceChar, ' '] _ (by decide)] at hc
      obtain rfl : lbraceChar = c := by
        simpa using hc
      decide
  show (⟨stripWith isPySpace ("define " ++ t ++ " \x7b").data⟩ : String) = _
  rw [hid]

theorem strDrop_opener (t : String) :
    strDrop ("define " ++ t ++ " \x7b") 7 = ⟨t.data ++ [' ', lbraceChar]⟩ := by
  unfold strDrop
  rw [opener_data]
  refine congrArg String.mk ?_
  rw [show (7 : Nat) = ("define ".data : List Char).length from rfl]
  exact List.drop_left _ _

theorem opener_has_brace (t : String) :
    strHasChar lbraceChar (strDrop ("define " ++ t ++ " \x7b") 7) = true := by
  rw [strDrop_opener]
  show (t.data ++ [' ', lbraceChar]).contains lbraceChar = true
  simp

/-- Stripping `" \x7b"` from the opener remainder recovers the type tag. -/
theorem stripSet_tail (t : String) (ht : cleanType t = true) :
    pyStripSet [' ', lbraceChar] ⟨t.data ++ [' ', lbraceChar]⟩ = t := by
  have hprops := cleanType_props ht
  have hdata : stripWith (fun c => [' ', lbraceChar].contains c)
      (t.data ++ [' ', lbraceChar]) = t.data := by
    cases hd : t.data with
    | nil => decide
    | cons a l =>
      have ha_mem : a ∈ t.data := by rw [hd]; simp
      have ha_brace : ¬a = lbraceChar := (hprops.1.1 a ha_mem).1.1.2
      have ha_space : ¬a = ' ' := by
        have he := hprops.1.2
        rw [hd] at he
        simpa [edgeNotChar] using he
      have hlstrip : lstripWith (fun c => [' ', lbraceChar].contains c)
          ((a :: l) ++ [' ', lbraceChar]) = (a :: l) ++ [' ', lbraceChar] := by
        refine dropWhile_eq_self_of_head _ _ (fun c hc => ?_)
        obtain rfl : a = c := by simpa using hc
        simp [ha_space, ha_brace]
      unfold stripWith
      rw [hlstrip]
      unfold rstripWith
      rw [List.reverse_append]
      rw [show ([' ', lbraceChar].reverse : List Char) = [lbraceChar, ' ']
        from by decide]
      rw [show ((([lbraceChar, ' '] ++ (a :: l).reverse)).dropWhile
            (fun c => [' ', lbraceChar].contains c))
          = (a :: l).reverse.dropWhile (fun c => [' ', lbraceChar].contains c)
        from by simp [List.dropWhile_cons]]
      rw [dropWhile_eq_self_of_head _ _ (fun c hc => ?_), List.reverse_reverse]
      have hcmem : c ∈ t.data := by
        rw [hd]
        have hm := mem_of_head? hc
        rw [List.mem_reverse] at hm
        exact hm
      have hc_brace : ¬c = lbraceChar := (hprops.1.1 c hcmem).1.1.2
      have hc_space : ¬c = ' ' := by
        have he := hprops.2
        rw [hd] at he
        cases hrev : (a :: l).reverse with
        | nil => simp at hrev
        | cons b bs =>
          rw [hrev] at hc
          obtain rfl : b = c := by simpa using hc
          rw [hrev] at he
          simpa [edgeNotChar] using he
      simp [hc_space, hc_brace]
  show (⟨stripWith (fun c => [' ', lbraceChar].contains c)
        (t.data ++ [' ', lbraceChar])⟩ : String) = t
  rw [hdata]

theorem strStartsWith_define (t : String) :
    strStartsWith "define " ("define " ++ t ++ " \x7b") = true := by
  unfold strStartsWith
  rw [opener_data]
  simp [List.isPrefixOf_iff_prefix]

theorem skipToDefine_opener (n : Nat) (t : String) (rest : List (Nat × String)) :
    skipToDefine ((n, "define " ++ t ++ " \x7b") :: rest)
      = some (n, strDrop ("define " ++ t ++ " \x7b") 7, rest) := by
  simp [skipToDefine, strStartsWith_define]

theorem pyEq_refl : ∀ v : Value, pyEq v v = true := by
  intro v
  cases v <;> simp [pyEq, numOf?]

theorem dirsEqPy_refl : ∀ ds : List (String × Value), dirsEqPy ds ds = true
  | [] => rfl
  | kv :: ds => by simp [dirsEqPy, pyEq_refl, dirsEqPy_refl ds]

theorem setKey_fresh (k : String) (v : Value) :
    ∀ ds : List (String × Value), (∀ kv ∈ ds, ¬kv.1 = k) →
      setKey ds k v = ds ++ [(k, v)]
  | [], _ => rfl
  | kv :: ds, h => by
    rw [show setKey (kv :: ds) k v
        = if kv.1 = k then (k, v) :: ds else kv :: setKey ds k v from rfl,
      if_neg (h kv (List.mem_cons_self kv ds)),
      setKey_fresh k v ds (fun x hx => h x (List.mem_cons_of_mem kv hx))]
    rfl

theorem containsKey_append (ds1 ds2 : List (String × Value)) (k : String) :
    containsKey (ds1 ++ ds2) k = (containsKey ds1 k || containsKey ds2 k) := by
  simp [containsKey, List.any_append]

theorem nodupKeys_split :
    ∀ (ds1 : List (String × Value)) (k : String) (v : Value)
      (ds2 : List (String × Value)),
      nodupKeys (ds1 ++ (k, v) :: ds2) = true → ∀ kv ∈ ds1, ¬kv.1 = k
  | [], _, _, _, _ => by intro kv hkv; simp at hkv
  | a :: ds1, k, v, ds2, h => by
    intro kv hkv
    rw [show (a :: ds1) ++ (k, v) :: ds2 = a :: (ds1 ++ (k, v) :: ds2)
      from rfl] at h
    have hparts : containsKey (ds1 ++ (k, v) :: ds2) a.1 = false ∧
        nodupKeys (ds1 ++ (k, v) :: ds2) = true := by
      simpa [nodupKeys] using h
    rcases List.mem_cons.mp hkv with rfl | hkv2
    · intro he
      have htrue : containsKey (ds1 ++ (k, v) :: ds2) kv.1 = true := by
        rw [containsKey_append]
        have hright : containsKey ((k, v) :: ds2) kv.1 = true := by
          simp [containsKey, he]
        simp [hright]
      rw [htrue] at hparts
      exact absurd hparts.1 (by simp)
    · exact nodupKeys_split ds1 k v ds2 hparts.2 kv hkv2

theorem str_ne_empty {s : String} (h : s.data ≠ []) : ¬s = "" := by
  intro he
  exact h (by rw [he])

theorem cleanValue_cases {v : Value} (h : cleanValue v = true) :
    ∃ s, v = .vStr s ∧ cleanValueStr s = true := by
  cases v with
  | vStr s => exact ⟨s, rfl, h⟩
  | vNone => simp [cleanValue] at h
  | vInt n => simp [cleanValue] at h
  | vFloat q => simp [cleanValue] at h
  | vBool b => simp [cleanValue] at h
  | vListStr l => simp [cleanValue] at h

theorem cleanValueStr_ne_empty {s : String} (h : cleanValueStr s = true) :
    ¬s = "" := by
  refine str_ne_empty ?_
  exact ne_nil_of_headNonSpace (cleanValueStr_edges h).1

theorem cleanValue_dumpable {v : Value} (h : cleanValue v = true) :
    dumpable v = true := by
  obtain ⟨s, rfl, hs⟩ := cleanValue_cases h
  simp [dumpable, Value.vStr.injEq, cleanValueStr_ne_empty hs]

theorem dumpLines_filterMap (ds : List (String × Value))
    (h : ds.all (fun kv => cleanKey kv.1 && cleanValue kv.2) = true) :
    ds.filterMap (fun kv =>
        if dumpable kv.2 then some (dumpDirLine kv.1 kv.2) else none)
      = ds.map (fun kv => dumpDirLine kv.1 kv.2) := by
  induction ds with
  | nil => rfl
  | cons kv ds ih =>
    have hparts : (cleanKey kv.1 && cleanValue kv.2) = true
        ∧ ds.all (fun kv => cleanKey kv.1 && cleanValue kv.2) = true := by
      simpa [List.all_cons, Bool.and_eq_true] using h
    have hv : cleanValue kv.2 = true := by
      have := hparts.1
      rw [Bool.and_eq_true] at this
      exact this.2
    simp [List.filterMap_cons, cleanValue_dumpable hv, ih hparts.2]

theorem enumFrom_append : ∀ (l1 l2 : List String) (n : Nat),
    enumFrom n (l1 ++ l2) = enumFrom n l1 ++ enumFrom (n + l1.length) l2
  | [], l2, n => by simp [enumFrom]
  | l :: l1, l2, n => by
    have ih := enumFrom_append l1 l2 (n + 1)
    show (n, l) :: enumFrom (n + 1) (l1 ++ l2)
        = (n, l) :: (enumFrom (n + 1) l1 ++ enumFrom (n + (l1.length + 1)) l2)
    rw [ih, show n + 1 + l1.length = n + (l1.length + 1) from by omega]

theorem filterMap_read_nonempty :
    ∀ (ls : List String) (n : Nat), (∀ l ∈ ls, ¬preprocessLine l = "") →
      ((enumFrom n ls).filterMap fun nl =>
          let p := preprocessLine nl.2
          if p = "" then none else some (nl.1, p))
        = (enumFrom n ls).map fun nl => (nl.1, preprocessLine nl.2)
  | [], _, _ => rfl
  | l :: ls, n, h => by
    simp only [enumFrom, List.filterMap_cons, List.map_cons]
    rw [if_neg (h l (List.mem_cons_self l ls))]
    rw [filterMap_read_nonempty ls (n + 1)
      (fun x hx => h x (List.mem_cons_of_mem l hx))]

theorem map_snd_enumFrom_map : ∀ (ls : List String) (n : Nat),
    ((enumFrom n ls).map fun nl => ((nl.1 : Nat), preprocessLine nl.2)).map
        Prod.snd
      = ls.map preprocessLine
  | [], _ => rfl
  | l :: ls, n => by
    simp only [enumFrom, List.map_cons]
    rw [map_snd_enumFrom_map ls (n + 1)]

theorem pyStrip_pad (x : Nat) (s : String) (hs : cleanValueStr s = true) :
    pyStrip ⟨List.replicate x ' ' ++ s.data⟩ = s := by
  show (⟨stripWith isPySpace (List.replicate x ' ' ++ s.data)⟩ : String) = s
  unfold stripWith lstripWith rstripWith
  rw [dropWhile_replicate_cons isPySpace ' ' (by decide),
    dropWhile_eq_self_of_head isPySpace s.data
      (head_false_of_headNonSpace (cleanValueStr_edges hs).1),
    dropWhile_eq_self_of_head isPySpace s.data.reverse
      (head_false_of_headNonSpace (cleanValueStr_edges hs).2),
    List.reverse_reverse]

/-- The directive loop of `load` parses the dumped, preprocessed directive
lines back into exactly the original mapping, appended in order. -/
theorem readDirectives_dumped (sf : Option String) :
    ∀ (ds : List (String × Value)) (ps : List (Nat × String)) (m : Nat)
      (tail : List (Nat × String)) (acc : Objdef),
      ps.map Prod.snd
        = ds.map (fun kv => preprocessLine (dumpDirLine kv.1 kv.2)) →
      ds.all (fun kv => cleanKey kv.1 && cleanValue kv.2) = true →
      nodupKeys (acc.directives ++ ds) = true →
      readDirectives sf acc (ps ++ (m, rbraceStr) :: tail)
        = .ok ({ acc with directives := acc.directives ++ ds }, tail)
  | [], ps, m, tail, acc, hmap, _, _ => by
    have hps : ps = [] := by
      cases ps with
      | nil => rfl
      | cons p ps2 => simp at hmap
    subst hps
    rw [show ([] : List (Nat × String)) ++ (m, rbraceStr) :: tail
        = (m, rbraceStr) :: tail from rfl]
    rw [show readDirectives sf acc ((m, rbraceStr) :: tail)
        = .ok (acc, tail) from by simp [readDirectives]]
    rw [List.append_nil]
  | (k, v) :: ds, ps, m, tail, acc, hmap, hclean, hnodup => by
    have hcl : (cleanKey k && cleanValue v) = true ∧
        ds.all (fun kv => cleanKey kv.1 && cleanValue kv.2) = true := by
      simpa [List.all_cons] using hclean
    have hkv : cleanKey k = true ∧ cleanValue v = true := by
      have := hcl.1
      rw [Bool.and_eq_true] at this
      exact this
    obtain ⟨s, rfl, hs⟩ := cleanValue_cases hkv.2
    cases ps with
    | nil => simp at hmap
    | cons p ps2 =>
      obtain ⟨n, line⟩ := p
      have hpair : line = preprocessLine (dumpDirLine k (.vStr s))
          ∧ ps2.map Prod.snd
            = ds.map (fun kv => preprocessLine (dumpDirLine kv.1 kv.2)) := by
        simpa using hmap
      have hline : line
          = ⟨k.data ++ List.replicate (keywidth - k.data.length + 1) ' '
              ++ s.data⟩ :=
        hpair.1.trans (preprocess_dirLine k s hkv.1 hs)
      have hspace_mem : ' ' ∈ line.data := by
        rw [hline]
        show ' ' ∈ k.data ++ List.replicate (keywidth - k.data.length + 1) ' '
            ++ s.data
        refine List.mem_append.mpr (Or.inl (List.mem_append.mpr (Or.inr ?_)))
        exact List.mem_replicate.mpr ⟨by omega, rfl⟩
      have hne : ¬line = rbraceStr := by
        intro he
        rw [he] at hspace_mem
        exact absurd hspace_mem (by decide)
      have hsplit : pySplitOnce ' ' line
          = some (k, ⟨List.replicate (keywidth - k.data.length) ' '
              ++ s.data⟩) := by
        rw [hline]
        unfold pySplitOnce
        rw [show (⟨k.data ++ List.replicate (keywidth - k.data.length + 1) ' '
              ++ s.data⟩ : String).data
            = k.data ++ (' ' :: (List.replicate (keywidth - k.data.length) ' '
              ++ s.data)) from by
          rw [List.append_assoc]
          rfl]
        rw [splitOnceChars_append k.data _ (cleanKey_no_space hkv.1)]
        rfl
      have hfresh : ∀ kv ∈ acc.directives, ¬kv.1 = k :=
        nodupKeys_split acc.directives k (.vStr s) ds hnodup
      have hstrip := pyStrip_pad (keywidth - k.length) s hs
      have hstep : readDirectives sf acc
            ((n, line) :: (ps2 ++ (m, rbraceStr) :: tail))
          = readDirectives sf
              { acc with directives := acc.directives ++ [(k, Value.vStr s)] }
              (ps2 ++ (m, rbraceStr) :: tail) := by
        simp [readDirectives, hne, hsplit, hstrip,
          setKey_fresh k (.vStr s) acc.directives hfresh]
      have hnodup2 : nodupKeys
          ((acc.directives ++ [(k, Value.vStr s)]) ++ ds) = true := by
        rw [List.append_assoc]
        exact hnodup
      have hrec := readDirectives_dumped sf ds ps2 m tail
        { acc with directives := acc.directives ++ [(k, Value.vStr s)] }
        hpair.2 hcl.2 hnodup2
      rw [show ((n, line) :: ps2) ++ (m, rbraceStr) :: tail
          = (n, line) :: (ps2 ++ (m, rbraceStr) :: tail) from rfl]
      rw [hstep, hrec]
      have hlist : (acc.directives ++ [(k, Value.vStr s)]) ++ ds
          = acc.directives ++ (k, Value.vStr s) :: ds := by
        rw [List.append_assoc]
        rfl
      rw [show ({ acc with directives := acc.directives ++ [(k, Value.vStr s)]
          } : Objdef).directives = acc.directives ++ [(k, Value.vStr s)]
        from rfl, hlist]

/-- C1 (amended): for every record in the well-formed domain — clean type
tag, clean non-empty string values, clean keys, distinct keys — parsing the
canonical serialized form yields a record that is Python-equal to the
original: same type tag and the same directive mapping in the same order
(the parsed record's line number is that of the opener line, which record
equality does not compare). -/
theorem parse_dump_roundtrip (r : Objdef) (h : wellFormed r = true) :
    parseObjdef none (dumpLines r) = .ok ({ r with linenum := 1 }, []) ∧
    objdefEqPy { r with linenum := 1 } r = true := by
  have h2 := h
  unfold wellFormed at h2
  rw [Bool.and_eq_true, Bool.and_eq_true] at h2
  obtain ⟨⟨ht, hclean⟩, hnodup⟩ := h2
  refine ⟨?_, by simp [objdefEqPy, dirsEqPy_refl]⟩
  have hdl : dumpLines r
      = ("define " ++ r.objtype ++ " \x7b")
        :: (r.directives.map (fun kv => dumpDirLine kv.1 kv.2)
            ++ ["\x7d"]) := by
    unfold dumpLines
    rw [dumpLines_filterMap r.directives hclean, List.cons_append]
  have hne : ∀ l ∈ dumpLines r, ¬preprocessLine l = "" := by
    rw [hdl]
    intro l hl
    rcases List.mem_cons.mp hl with rfl | hl2
    · rw [preprocess_opener r.objtype ht]
      refine str_ne_empty ?_
      rw [opener_data]
      simp
    · rcases List.mem_append.mp hl2 with hl3 | hl3
      · obtain ⟨kv, hkvmem, rfl⟩ := List.mem_map.mp hl3
        have hckv : (cleanKey kv.1 && cleanValue kv.2) = true := by
          rw [List.all_eq_true] at hclean
          exact hclean kv hkvmem
        rw [Bool.and_eq_true] at hckv
        obtain ⟨s, hvs, hs⟩ := cleanValue_cases hckv.2
        rw [show dumpDirLine kv.1 kv.2 = dumpDirLine kv.1 (.vStr s)
          from by rw [hvs]]
        rw [preprocess_dirLine kv.1 s hckv.1 hs]
        refine str_ne_empty ?_
        show ¬(kv.1.data ++ List.replicate (keywidth - kv.1.data.length + 1) ' '
            ++ s.data) = []
        simp [cleanKey_ne_nil hckv.1]
      · obtain rfl : l = "\x7d" := by simpa using hl3
        decide
  have hrl : readLines (dumpLines r)
      = (1, "define " ++ r.objtype ++ " \x7b")
        :: (((enumFrom 2 (r.directives.map fun kv => dumpDirLine kv.1 kv.2)).map
              fun nl => (nl.1, preprocessLine nl.2))
            ++ [(2 + (r.directives.map fun kv => dumpDirLine kv.1 kv.2).length,
                 rbraceStr)]) := by
    unfold readLines
    rw [filterMap_read_nonempty (dumpLines r) 1 hne]
    rw [hdl]
    rw [show enumFrom 1 (("define " ++ r.objtype ++ " \x7b")
          :: (r.directives.map (fun kv => dumpDirLine kv.1 kv.2) ++ ["\x7d"]))
        = (1, "define " ++ r.objtype ++ " \x7b")
          :: enumFrom 2 (r.directives.map (fun kv => dumpDirLine kv.1 kv.2)
              ++ ["\x7d"]) from rfl]
    rw [enumFrom_append (r.directives.map fun kv => dumpDirLine kv.1 kv.2)
      ["\x7d"] 2]
    rw [List.map_cons, List.map_append]
    rw [preprocess_opener r.objtype ht]
    rfl
  have hps_map : (((enumFrom 2 (r.directives.map fun kv =>
          dumpDirLine kv.1 kv.2)).map fun nl =>
            ((nl.1 : Nat), preprocessLine nl.2)).map Prod.snd)
      = r.directives.map (fun kv => preprocessLine (dumpDirLine kv.1 kv.2)) := by
    rw [map_snd_enumFrom_map (r.directives.map fun kv => dumpDirLine kv.1 kv.2) 2]
    rw [List.map_map]
    rfl
  have hnodup0 : nodupKeys ((fromType r.objtype 1).directives
      ++ r.directives) = true := by
    show nodupKeys ([] ++ r.directives) = true
    rw [List.nil_append]
    exact hnodup
  have hload := readDirectives_dumped none r.directives
    ((enumFrom 2 (r.directives.map fun kv => dumpDirLine kv.1 kv.2)).map
      fun nl => ((nl.1 : Nat), preprocessLine nl.2))
    (2 + (r.directives.map fun kv => dumpDirLine kv.1 kv.2).length) []
    (fromType r.objtype 1) hps_map hclean hnodup0
  have hassemble : ∀ rest : List (Nat × String),
      loadObjdef none ((1, "define " ++ r.objtype ++ " \x7b") :: rest)
        = readDirectives none (fromType r.objtype 1) rest := by
    intro rest
    simp only [loadObjdef, skipToDefine_opener, opener_has_brace, if_true]
    rw [strDrop_opener, stripSet_tail r.objtype ht]
  unfold parseObjdef
  rw [hrl, hassemble _, hload]
  rw [show ({ fromType r.objtype 1 with
        directives := (fromType r.objtype 1).directives ++ r.directives }
      : Objdef) = { r with linenum := 1 } from by
    show (⟨r.objtype, [] ++ r.directives, 1⟩ : Objdef)
        = ⟨r.objtype, r.directives, 1⟩
    rw [List.nil_append]]

/-- Witness for C1 at a concrete well-formed record. -/
theorem parse_dump_roundtrip_witness :
    wellFormed ⟨"host", [("host_name", .vStr "foo"),
        ("contacts", .vStr "a,b")], 7⟩ = true ∧
    parseObjdef none (dumpLines ⟨"host", [("host_name", .vStr "foo"),
        ("contacts", .vStr "a,b")], 7⟩)
      = .ok (⟨"host", [("host_name", .vStr "foo"),
          ("contacts", .vStr "a,b")], 1⟩, []) ∧
    objdefEqPy ⟨"host", [("host_name", .vStr "foo"),
        ("contacts", .vStr "a,b")], 1⟩
      ⟨"host", [("host_name", .vStr "foo"),
        ("contacts", .vStr "a,b")], 7⟩ = true :=
  ⟨by decide,
   (parse_dump_roundtrip ⟨"host", [("host_name", .vStr "foo"),
       ("contacts", .vStr "a,b")], 7⟩ (by decide)).1,
   (parse_dump_roundtrip ⟨"host", [("host_name", .vStr "foo"),
       ("contacts", .vStr "a,b")], 7⟩ (by decide)).2⟩

/-- C1 counterexample: a record holding an empty-string directive value is
not recovered by the round trip — `dump` omits the directive, so the
re-parsed record's mapping lacks the key, and the records are not equal. -/
theorem parse_dump_empty_value_counter :
    parseObjdef none (dumpLines ⟨"host", [("address", .vStr "")], 0⟩)
      = .ok (⟨"host", [], 1⟩, []) ∧
    objdefEqPy ⟨"host", [], 1⟩ ⟨"host", [("address", .vStr "")], 0⟩
      = false := by
  decide

end Nacl
